import Mathlib

/-!
Verification of the scm-gan repository's core components:
  * `atari.py` — `MultiEnvironment`, a pool of N gym environments with
    batched `step`, automatic per-slot episode restart, and a 100-no-op
    warm-up after every reset (`reset_env`).
  * `main.py` — `compute_causal_graph`, the counterfactual-ablation
    causal-graph builder over a latent-dynamics model.

The embedding is shallow: gym environments become explicit state machines,
tensors become functions `Fin b → Fin L → ℚ`, in-place numpy/torch writes
become functional updates, the Python `for` loops become `List.foldl`
over `List.finRange`, and runtime exceptions (a failed `assert`, the
`ValueError` raised by unpacking `zip(*[])`) become `Except` errors.
IEEE division by zero is modelled by the `NpFloat` type, whose `nan`/`inf`
constructors mirror the float values numpy produces.
-/

namespace SCMGan

/-! ## Embedding of `atari.py` -/

/-- A gym environment, as consumed by `atari.py`: an internal state type `S`,
an observation type `O`, an info type `I`.  `stepFn s a` returns the new
internal state together with the `(state, reward, done, info)` 4-tuple that
Python's `env.step(action)` returns (gym calls the observation `state`);
`resetFn s` returns the new internal state together with the observation
that `env.reset()` returns. -/
structure EnvDyn (S O I : Type) where
  stepFn : S → ℕ → S × O × ℚ × Bool × I
  resetFn : S → S × O

variable {S O I : Type}

/-- `reset_env(env)` from `atari.py`: call `env.reset()`, then run the loop
`for _ in range(100): env.step(0)`, discarding every observation. -/
def reset_env (E : EnvDyn S O I) (s : S) : S :=
  (List.range 100).foldl (fun st _ => (E.stepFn st 0).1) (E.resetFn s).1

/-- The inner function `run_one_step(env, action)` of `MultiEnvironment.step`:
perform `env.step(action)`; if `done` then `reset_env(env)`;
return the `(state, reward, done, info)` tuple produced by the step
(the first component below is the environment's internal state after the
in-place mutation; the remaining four are the values Python returns). -/
def run_one_step (E : EnvDyn S O I) (s : S) (a : ℕ) : S × O × ℚ × Bool × I :=
  let r := E.stepFn s a
  ((if r.2.2.2.1 then reset_env E r.1 else r.1), r.2)

/-- The two ways `MultiEnvironment.step` can raise: the
`assert len(actions) == len(self.envs)` failing, and the `ValueError`
raised by `states, rewards, dones, infos = zip(*results)` when
`results` is empty. -/
inductive StepErr where
  | assertFail : StepErr
  | unpackFail : StepErr
deriving DecidableEq

/-- `MultiEnvironment.step(actions)`.  The pool is the list of environment
internal states (Python mutates `self.envs` in place; we return the updated
pool as the first component).  The remaining components are the four
order-aligned sequences `(states, rewards, dones, infos)` that the Python
method returns via `zip(*results)`. -/
def MultiEnvironment.step (E : EnvDyn S O I) (envs : List S) (actions : List ℕ) :
    Except StepErr (List S × List O × List ℚ × List Bool × List I) :=
  if actions.length = envs.length then
    let results := List.zipWith (run_one_step E) envs actions
    match results with
    | [] => .error .unpackFail
    | _ :: _ =>
        .ok (results.map (fun r => r.1),
             results.map (fun r => r.2.1),
             results.map (fun r => r.2.2.1),
             results.map (fun r => r.2.2.2.1),
             results.map (fun r => r.2.2.2.2))
  else .error .assertFail

/-- `MultiEnvironment.reset`: `for env in self.envs: reset_env(env)`. -/
def MultiEnvironment.resetAll (E : EnvDyn S O I) (envs : List S) : List S :=
  envs.map (reset_env E)

/-- `MultiEnvironment.__init__(name, batch_size)`: build the environments with
the sequential list comprehension `[gym.make(name) for i in range(batch_size)]`
(`mk` models `gym.make(name)`), then `self.reset()`. -/
def MultiEnvironment.init (E : EnvDyn S O I) (mk : Unit → S) (batch_size : ℕ) : List S :=
  MultiEnvironment.resetAll E ((List.range batch_size).map (fun _ => mk ()))

/-! ## Embedding of `compute_causal_graph` from `main.py`

A batch of latent vectors (`src_z`, `dst_z`, …, torch tensors of shape
`[batch, latent_dim]`) is a function `Fin b → Fin L → ℚ`; a batch of one-hot
action encodings (shape `[batch, num_actions]`) is `Fin b → Fin A → ℚ`.
The encoder maps a batch of observations to a latent batch and the
transition model maps a latent batch and an action-encoding batch to a
latent batch, exactly as `compute_causal_graph` consumes them.  Querying the
models in inference mode (frozen running statistics, no gradients) is what
makes them representable as fixed functions. -/

/-- A batch of `b` latent vectors of dimension `L` (a `[b, L]` tensor). -/
abbrev Latents (b L : ℕ) := Fin b → Fin L → ℚ

/-- `torch.eye(num_actions)[actions]`: the batch of one-hot rows selected by a
batch of action indices. -/
def onehotB {b A : ℕ} (acts : Fin b → Fin A) : Fin b → Fin A → ℚ :=
  fun bi a => if a = acts bi then 1 else 0

/-- `perturbed_src_z = src_z.clone(); perturbed_src_z[:, i] = 0`: a fresh copy
of the latent batch with column `i` set to exactly `0` across the whole batch,
all other columns untouched. -/
def setColZero {b L : ℕ} (z : Latents b L) (i : Fin L) : Latents b L :=
  fun bi k => if k = i then 0 else z bi k

/-- Writing one cell of the numpy matrix:
`causal_edge_weights[src_factor_idx, dst_factor_idx] = edge_weight`. -/
def writeW {L : ℕ} (w : Fin L → Fin L → ℚ) (i j : Fin L) (v : ℚ) :
    Fin L → Fin L → ℚ :=
  fun i' j' => if i' = i ∧ j' = j then v else w i' j'

/-- The inner loop `for dst_factor_idx in range(latent_dim)`: for each
destination index `j`, store `cf_difference[:, j].sum()` — the sum over the
batch dimension — into row `i` of the matrix. -/
def innerLoop {b L : ℕ} (cf_difference : Fin b → Fin L → ℚ) (i : Fin L)
    (w : Fin L → Fin L → ℚ) : Fin L → Fin L → ℚ :=
  (List.finRange L).foldl (fun w' j => writeW w' i j (∑ bi, cf_difference bi j)) w

/-- The state carried by the loop `for src_factor_idx in range(latent_dim)`:
the factual latents `src_z` and `dst_z` it reads and the numpy matrix
`causal_edge_weights` it fills in. -/
structure LoopState (b L : ℕ) where
  src_z : Latents b L
  dst_z : Latents b L
  weights : Fin L → Fin L → ℚ

/-- One iteration of the outer loop, for source factor `i`:
`ground_truth_outcome = dst_z`; clone `src_z` and zero its column `i`;
`counterfactual_outcome = transition(perturbed_src_z, onehot_a)`;
`cf_difference = (ground_truth_outcome - counterfactual_outcome)**2`;
then run the inner loop over destination factors.  Only the matrix is
written; `src_z` and `dst_z` are merely read. -/
def loopBody {b L A : ℕ}
    (transition : Latents b L → (Fin b → Fin A → ℚ) → Latents b L)
    (onehot_a : Fin b → Fin A → ℚ) (st : LoopState b L) (i : Fin L) :
    LoopState b L :=
  let ground_truth_outcome := st.dst_z
  let perturbed_src_z := setColZero st.src_z i
  let counterfactual_outcome := transition perturbed_src_z onehot_a
  let cf_difference : Fin b → Fin L → ℚ :=
    fun bi j => (ground_truth_outcome bi j - counterfactual_outcome bi j) ^ 2
  { st with weights := innerLoop cf_difference i st.weights }

/-- `z = encoder(states[:, 0])`. -/
def zInit {b L : ℕ} {Obs : Type} (encoder : (Fin b → Obs) → Latents b L)
    (states : Fin b → ℕ → Obs) : Latents b L :=
  encoder (fun bi => states bi 0)

/-- `src_z = transition(z, onehot(actions[:, 0]))`. -/
def srcZ {b L A : ℕ} {Obs : Type} (encoder : (Fin b → Obs) → Latents b L)
    (transition : Latents b L → (Fin b → Fin A → ℚ) → Latents b L)
    (states : Fin b → ℕ → Obs) (actions : Fin b → ℕ → Fin A) : Latents b L :=
  transition (zInit encoder states) (onehotB (fun bi => actions bi 0))

/-- `dst_z = transition(src_z, onehot(actions[:, 1]))`. -/
def dstZ {b L A : ℕ} {Obs : Type} (encoder : (Fin b → Obs) → Latents b L)
    (transition : Latents b L → (Fin b → Fin A → ℚ) → Latents b L)
    (states : Fin b → ℕ → Obs) (actions : Fin b → ℕ → Fin A) : Latents b L :=
  transition (srcZ encoder transition states actions)
    (onehotB (fun bi => actions bi 1))

/-- The filled, pre-normalization matrix `causal_edge_weights`: run the factual
trajectory, then the double loop, starting from `np.zeros((latent_dim,
latent_dim))`. -/
def rawCausalEdgeWeights {b L A : ℕ} {Obs : Type}
    (encoder : (Fin b → Obs) → Latents b L)
    (transition : Latents b L → (Fin b → Fin A → ℚ) → Latents b L)
    (states : Fin b → ℕ → Obs) (actions : Fin b → ℕ → Fin A) :
    Fin L → Fin L → ℚ :=
  let onehot_a := onehotB (fun bi => actions bi 1)
  ((List.finRange L).foldl (loopBody transition onehot_a)
    ⟨srcZ encoder transition states actions,
     dstZ encoder transition states actions,
     fun _ _ => 0⟩).weights

/-- A numpy `float64` value as produced by the final division: either a finite
rational, or one of the IEEE non-finite values that dividing by zero yields. -/
inductive NpFloat where
  | val (q : ℚ) : NpFloat
  | nan : NpFloat
  | inf : NpFloat
  | ninf : NpFloat
deriving DecidableEq

/-- IEEE division of finite values as numpy performs it: `0/0 = nan`,
`x/0 = ±inf` for `x ≠ 0`, ordinary division otherwise. -/
def npDiv (a m : ℚ) : NpFloat :=
  if m = 0 then (if a = 0 then .nan else if 0 < a then .inf else .ninf)
  else .val (a / m)

/-- `causal_edge_weights.max()`: the maximum entry of the matrix (row-major
fold over all entries, seeded with the first entry; numpy raises on an empty
array, so the `L = 0` seed `0` is never reached by the program). -/
def matMax {L : ℕ} (m : Fin L → Fin L → ℚ) : ℚ :=
  let entries := (List.finRange L).flatMap (fun i => (List.finRange L).map (m i))
  entries.foldl max (entries.headD 0)

/-- `compute_causal_graph(encoder, transition, states, actions, latent_dim,
num_actions)`: fill `causal_edge_weights` and then perform
`causal_edge_weights /= causal_edge_weights.max()` entrywise —
unconditionally, with no guard on a zero maximum. -/
def compute_causal_graph {b L A : ℕ} {Obs : Type}
    (encoder : (Fin b → Obs) → Latents b L)
    (transition : Latents b L → (Fin b → Fin A → ℚ) → Latents b L)
    (states : Fin b → ℕ → Obs) (actions : Fin b → ℕ → Fin A) :
    Fin L → Fin L → NpFloat :=
  let raw := rawCausalEdgeWeights encoder transition states actions
  fun i j => npDiv (raw i j) (matMax raw)

/-- `counterfactual_outcome` for source factor `i`: the transition applied to
the clone of `src_z` with column `i` zeroed, with the same one-hot action
`onehot(actions[:, 1])` that produced `dst_z`. -/
def counterfactualOutcome {b L A : ℕ} {Obs : Type}
    (encoder : (Fin b → Obs) → Latents b L)
    (transition : Latents b L → (Fin b → Fin A → ℚ) → Latents b L)
    (states : Fin b → ℕ → Obs) (actions : Fin b → ℕ → Fin A) (i : Fin L) :
    Latents b L :=
  transition (setColZero (srcZ encoder transition states actions) i)
    (onehotB (fun bi => actions bi 1))

/-- `cf_difference = (ground_truth_outcome - counterfactual_outcome)**2` for
source factor `i`, a `[b, L]` batch. -/
def cfDifference {b L A : ℕ} {Obs : Type}
    (encoder : (Fin b → Obs) → Latents b L)
    (transition : Latents b L → (Fin b → Fin A → ℚ) → Latents b L)
    (states : Fin b → ℕ → Obs) (actions : Fin b → ℕ → Fin A) (i : Fin L) :
    Fin b → Fin L → ℚ :=
  fun bi j => (dstZ encoder transition states actions bi j -
    counterfactualOutcome encoder transition states actions i bi j) ^ 2

/-! ## Helper lemmas -/

section Lemmas

lemma foldl_step_range_eq_iterate {α : Type} (f : α → α) (n : ℕ) (x : α) :
    (List.range n).foldl (fun st _ => f st) x = f^[n] x := by
  induction n with
  | zero => rfl
  | succ n ih =>
      rw [List.range_succ, List.foldl_append, ih, Function.iterate_succ_apply']
      rfl

lemma foldl_writeW_apply {L : ℕ} (f : Fin L → ℚ) (i : Fin L)
    (l : List (Fin L)) (w : Fin L → Fin L → ℚ) (i' j' : Fin L) :
    (l.foldl (fun w' j => writeW w' i j (f j)) w) i' j' =
      if i' = i ∧ j' ∈ l then f j' else w i' j' := by
  induction l generalizing w with
  | nil => simp
  | cons a l ih =>
      rw [List.foldl_cons, ih]
      by_cases hi : i' = i
      · by_cases hl : j' ∈ l
        · simp [hi, hl]
        · by_cases ha : j' = a
          · simp [writeW, hi, hl, ha]
          · simp [writeW, hi, hl, ha]
      · simp [writeW, hi]

lemma innerLoop_apply {b L : ℕ} (cf : Fin b → Fin L → ℚ) (i : Fin L)
    (w : Fin L → Fin L → ℚ) (i' j' : Fin L) :
    innerLoop cf i w i' j' =
      if i' = i then ∑ bi, cf bi j' else w i' j' := by
  rw [innerLoop, foldl_writeW_apply]
  simp [List.mem_finRange]

lemma loopBody_src_z {b L A : ℕ}
    (transition : Latents b L → (Fin b → Fin A → ℚ) → Latents b L)
    (onehot_a : Fin b → Fin A → ℚ) (st : LoopState b L) (i : Fin L) :
    (loopBody transition onehot_a st i).src_z = st.src_z := rfl

lemma loopBody_dst_z {b L A : ℕ}
    (transition : Latents b L → (Fin b → Fin A → ℚ) → Latents b L)
    (onehot_a : Fin b → Fin A → ℚ) (st : LoopState b L) (i : Fin L) :
    (loopBody transition onehot_a st i).dst_z = st.dst_z := rfl

lemma foldl_loopBody_src_z {b L A : ℕ}
    (transition : Latents b L → (Fin b → Fin A → ℚ) → Latents b L)
    (onehot_a : Fin b → Fin A → ℚ) (l : List (Fin L)) (st : LoopState b L) :
    (l.foldl (loopBody transition onehot_a) st).src_z = st.src_z := by
  induction l generalizing st with
  | nil => rfl
  | cons a l ih => rw [List.foldl_cons, ih, loopBody_src_z]

lemma foldl_loopBody_dst_z {b L A : ℕ}
    (transition : Latents b L → (Fin b → Fin A → ℚ) → Latents b L)
    (onehot_a : Fin b → Fin A → ℚ) (l : List (Fin L)) (st : LoopState b L) :
    (l.foldl (loopBody transition onehot_a) st).dst_z = st.dst_z := by
  induction l generalizing st with
  | nil => rfl
  | cons a l ih => rw [List.foldl_cons, ih, loopBody_dst_z]

lemma foldl_loopBody_weights {b L A : ℕ}
    (transition : Latents b L → (Fin b → Fin A → ℚ) → Latents b L)
    (onehot_a : Fin b → Fin A → ℚ) (l : List (Fin L)) (st : LoopState b L)
    (i' j' : Fin L) :
    (l.foldl (loopBody transition onehot_a) st).weights i' j' =
      if i' ∈ l then
        ∑ bi, (st.dst_z bi j' -
          transition (setColZero st.src_z i') onehot_a bi j') ^ 2
      else st.weights i' j' := by
  induction l generalizing st with
  | nil => simp
  | cons a l ih =>
      rw [List.foldl_cons, ih]
      simp only [loopBody, innerLoop_apply]
      by_cases hl : i' ∈ l
      · simp [hl]
      · by_cases ha : i' = a
        · subst ha; simp [hl, innerLoop_apply]
        · simp [hl, ha, List.mem_cons]

/-- The filled matrix, cell by cell: entry `(i, j)` is the batch sum of the
squared difference between the factual outcome and the counterfactual outcome
obtained by ablating source factor `i`, read off at destination factor `j`. -/
lemma rawCausalEdgeWeights_apply {b L A : ℕ} {Obs : Type}
    (encoder : (Fin b → Obs) → Latents b L)
    (transition : Latents b L → (Fin b → Fin A → ℚ) → Latents b L)
    (states : Fin b → ℕ → Obs) (actions : Fin b → ℕ → Fin A) (i j : Fin L) :
    rawCausalEdgeWeights encoder transition states actions i j =
      ∑ bi, cfDifference encoder transition states actions i bi j := by
  rw [rawCausalEdgeWeights, foldl_loopBody_weights]
  simp [List.mem_finRange, cfDifference, counterfactualOutcome]

lemma rawCausalEdgeWeights_nonneg {b L A : ℕ} {Obs : Type}
    (encoder : (Fin b → Obs) → Latents b L)
    (transition : Latents b L → (Fin b → Fin A → ℚ) → Latents b L)
    (states : Fin b → ℕ → Obs) (actions : Fin b → ℕ → Fin A) (i j : Fin L) :
    0 ≤ rawCausalEdgeWeights encoder transition states actions i j := by
  rw [rawCausalEdgeWeights_apply]
  exact Finset.sum_nonneg (fun bi _ => sq_nonneg _)

lemma le_foldl_max_init (l : List ℚ) (x : ℚ) : x ≤ l.foldl max x := by
  induction l generalizing x with
  | nil => exact le_refl x
  | cons a l ih => exact le_trans (le_max_left x a) (ih (max x a))

lemma le_foldl_max_of_mem {l : List ℚ} {a : ℚ} (x : ℚ) (h : a ∈ l) :
    a ≤ l.foldl max x := by
  induction l generalizing x with
  | nil => cases h
  | cons c l ih =>
      rcases List.mem_cons.mp h with h1 | h2
      · subst h1
        exact le_trans (le_max_right x a) (le_foldl_max_init l (max x a))
      · exact ih (max x c) h2

lemma foldl_max_eq_init_or_mem (l : List ℚ) (x : ℚ) :
    l.foldl max x = x ∨ l.foldl max x ∈ l := by
  induction l generalizing x with
  | nil => exact Or.inl rfl
  | cons a l ih =>
      rw [List.foldl_cons]
      rcases ih (max x a) with h | h
      · rw [h]
        rcases max_choice x a with h1 | h1
        · exact Or.inl h1
        · exact Or.inr (by rw [h1]; exact List.mem_cons_self a l)
      · exact Or.inr (List.mem_cons_of_mem a h)

lemma mem_entries_iff {L : ℕ} (m : Fin L → Fin L → ℚ) (q : ℚ) :
    (q ∈ (List.finRange L).flatMap (fun i => (List.finRange L).map (m i))) ↔
      ∃ i j, m i j = q := by
  simp [List.mem_flatMap, List.mem_map, List.mem_finRange, eq_comm]

lemma matMax_ge {L : ℕ} (m : Fin L → Fin L → ℚ) (i j : Fin L) :
    m i j ≤ matMax m := by
  apply le_foldl_max_of_mem
  exact (mem_entries_iff m (m i j)).mpr ⟨i, j, rfl⟩

lemma matMax_is_entry {L : ℕ} (m : Fin L → Fin L → ℚ) (i0 : Fin L) :
    ∃ i j, matMax m = m i j := by
  rcases foldl_max_eq_init_or_mem
      ((List.finRange L).flatMap (fun i => (List.finRange L).map (m i)))
      (((List.finRange L).flatMap (fun i => (List.finRange L).map (m i))).headD 0)
      with h | h
  · rw [matMax, h]
    have hmem : m i0 i0 ∈
        (List.finRange L).flatMap (fun i => (List.finRange L).map (m i)) :=
      (mem_entries_iff m (m i0 i0)).mpr ⟨i0, i0, rfl⟩
    rcases hl : (List.finRange L).flatMap (fun i => (List.finRange L).map (m i))
        with _ | ⟨a, t⟩
    · rw [hl] at hmem; cases hmem
    · have : a ∈ (List.finRange L).flatMap
          (fun i => (List.finRange L).map (m i)) := by
        rw [hl]; exact List.mem_cons_self a t
      rcases (mem_entries_iff m a).mp this with ⟨i, j, hij⟩
      exact ⟨i, j, by simp [hij]⟩
  · rcases (mem_entries_iff m _).mp h with ⟨i, j, hij⟩
    exact ⟨i, j, by rw [matMax]; exact hij.symm⟩

lemma step_ok_elim {S O I : Type} (E : EnvDyn S O I) {envs : List S}
    {actions : List ℕ} {out : List S × List O × List ℚ × List Bool × List I}
    (hok : MultiEnvironment.step E envs actions = .ok out) :
    actions.length = envs.length ∧ envs ≠ [] ∧
    out = ((List.zipWith (run_one_step E) envs actions).map (fun r => r.1),
           (List.zipWith (run_one_step E) envs actions).map (fun r => r.2.1),
           (List.zipWith (run_one_step E) envs actions).map (fun r => r.2.2.1),
           (List.zipWith (run_one_step E) envs actions).map (fun r => r.2.2.2.1),
           (List.zipWith (run_one_step E) envs actions).map (fun r => r.2.2.2.2)) := by
  have hstep := hok
  simp only [MultiEnvironment.step] at hstep
  by_cases hlen : actions.length = envs.length
  · rw [if_pos hlen] at hstep
    have hzlen : (List.zipWith (run_one_step E) envs actions).length =
        envs.length := by
      rw [List.length_zipWith, hlen, min_self]
    cases hz : List.zipWith (run_one_step E) envs actions with
    | nil =>
        rw [hz] at hstep
        exact Except.noConfusion hstep
    | cons a t =>
        rw [hz] at hstep
        rw [hz] at hzlen
        refine ⟨hlen, ?_, ?_⟩
        · intro h
          rw [h] at hzlen
          simp at hzlen
        · exact (Except.ok.inj hstep).symm
  · rw [if_neg hlen] at hstep
    exact Except.noConfusion hstep

lemma step_eq_ok {S O I : Type} (E : EnvDyn S O I) (envs : List S)
    (actions : List ℕ) (hlen : actions.length = envs.length) (hne : envs ≠ []) :
    MultiEnvironment.step E envs actions =
      .ok ((List.zipWith (run_one_step E) envs actions).map (fun r => r.1),
           (List.zipWith (run_one_step E) envs actions).map (fun r => r.2.1),
           (List.zipWith (run_one_step E) envs actions).map (fun r => r.2.2.1),
           (List.zipWith (run_one_step E) envs actions).map (fun r => r.2.2.2.1),
           (List.zipWith (run_one_step E) envs actions).map (fun r => r.2.2.2.2)) := by
  simp only [MultiEnvironment.step, if_pos hlen]
  have hzlen : (List.zipWith (run_one_step E) envs actions).length =
      envs.length := by
    rw [List.length_zipWith, hlen, min_self]
  cases hz : List.zipWith (run_one_step E) envs actions with
  | nil =>
      rw [hz] at hzlen
      exact absurd (List.length_eq_zero.mp hzlen.symm) hne
  | cons a t => rfl

lemma step_ok_getElem {S O I : Type} (E : EnvDyn S O I) {envs : List S}
    {actions : List ℕ} {out : List S × List O × List ℚ × List Bool × List I}
    (hok : MultiEnvironment.step E envs actions = .ok out)
    {k : ℕ} {s : S} {a : ℕ}
    (hs : envs[k]? = some s) (ha : actions[k]? = some a) :
    out.1[k]? = some (run_one_step E s a).1 ∧
    out.2.1[k]? = some (run_one_step E s a).2.1 ∧
    out.2.2.1[k]? = some (run_one_step E s a).2.2.1 ∧
    out.2.2.2.1[k]? = some (run_one_step E s a).2.2.2.1 ∧
    out.2.2.2.2[k]? = some (run_one_step E s a).2.2.2.2 := by
  obtain ⟨hlen, hne, hout⟩ := step_ok_elim E hok
  have hr : (List.zipWith (run_one_step E) envs actions)[k]? =
      some (run_one_step E s a) :=
    List.getElem?_zipWith_eq_some.mpr ⟨s, a, hs, ha, rfl⟩
  subst hout
  refine ⟨?_, ?_, ?_, ?_, ?_⟩ <;> simp [List.getElem?_map, hr]

/-- A concrete deterministic environment used to exercise the pool: the
internal state is a step counter, every step observes the current counter,
reports reward `0` and `done = true`, and `reset` jumps the counter to
`1000` (so the 100-step warm-up leaves it at `1100`). -/
def cEnv : EnvDyn ℕ ℕ Unit where
  stepFn := fun s _ => (s + 1, s, 0, true, ())
  resetFn := fun _ => (1000, 999)

end Lemmas

/-! ## Claim theorems -/

set_option maxRecDepth 8000 in
/-- C1 (counterexample): in a round where a slot reports `done = true`, the
observation `MultiEnvironment.step` returns for that slot is the terminal
observation of the episode that just ended, not a post-reset-and-warm-up
observation.  In `cEnv` every observation equals the current step counter:
stepping slot state `5` observes `5` (terminal) and reports `done`; the slot
is indeed reset and warmed up to counter `1100`, whose observation would be
`1100`; yet the round returns observation `5`, not `1100`. -/
theorem C1_counterexample :
    (run_one_step cEnv 5 0).2.2.2.1 = true ∧
    (run_one_step cEnv 5 0).2.1 = (cEnv.stepFn 5 0).2.1 ∧
    (run_one_step cEnv 5 0).1 = 1100 ∧
    (cEnv.stepFn 1100 0).2.1 = 1100 ∧
    (run_one_step cEnv 5 0).2.1 ≠ 1100 := by
  refine ⟨rfl, rfl, ?_, rfl, ?_⟩ <;> decide

/-- C1 (amended): whenever a slot's step reports `done = true` in a round,
`MultiEnvironment.step` performs the reset-and-warm-up sequence for that slot
— the slot's environment state after the round is `reset_env` of the
post-step state — but the observation returned for that slot in that round is
the terminal observation produced by the step; the `done` flag, not the
returned observation, is the signal that an episode boundary occurred, and
the next round acts on the freshly reset episode. -/
theorem C1_done_resets_but_returns_terminal_obs {S O I : Type}
    (E : EnvDyn S O I) (envs : List S) (actions : List ℕ)
    (out : List S × List O × List ℚ × List Bool × List I)
    (hok : MultiEnvironment.step E envs actions = .ok out)
    (k : ℕ) (s : S) (a : ℕ)
    (hs : envs[k]? = some s) (ha : actions[k]? = some a)
    (hd : (E.stepFn s a).2.2.2.1 = true) :
    out.1[k]? = some (reset_env E (E.stepFn s a).1) ∧
    out.2.1[k]? = some (E.stepFn s a).2.1 ∧
    out.2.2.2.1[k]? = some true := by
  obtain ⟨h1, h2, _, h4, _⟩ := step_ok_getElem E hok hs ha
  refine ⟨?_, ?_, ?_⟩
  · rw [h1]
    simp [run_one_step, hd]
  · exact h2
  · rw [h4]
    simp [run_one_step, hd]

set_option maxRecDepth 8000 in
theorem C1_done_resets_but_returns_terminal_obs_witness :
    (([1100], [5], ([0] : List ℚ), [true], [()]) :
        List ℕ × List ℕ × List ℚ × List Bool × List Unit).1[0]? =
      some (reset_env cEnv (cEnv.stepFn 5 0).1) ∧
    (([1100], [5], ([0] : List ℚ), [true], [()]) :
        List ℕ × List ℕ × List ℚ × List Bool × List Unit).2.1[0]? =
      some (cEnv.stepFn 5 0).2.1 ∧
    (([1100], [5], ([0] : List ℚ), [true], [()]) :
        List ℕ × List ℕ × List ℚ × List Bool × List Unit).2.2.2.1[0]? =
      some true :=
  C1_done_resets_but_returns_terminal_obs cEnv [5] [0]
    ([1100], [5], [0], [true], [()]) (by rfl) 0 5 0 rfl rfl rfl

/-- C3 (counterexample): for a pool of size `N = 0` and the (unique)
action sequence of length `0`, `step` does not return four sequences — the
unpacking `states, rewards, dones, infos = zip(*results)` of the empty
result list raises, modelled by `.error .unpackFail`. -/
theorem C3_counterexample :
    MultiEnvironment.step cEnv ([] : List ℕ) ([] : List ℕ) =
      .error StepErr.unpackFail := rfl

/-- C3 (amended): for every pool of size `N ≥ 1`, `step` called with an
action sequence of length exactly `N` succeeds — it never raises because some
slot reported `done = true` — and returns four order-aligned sequences
(observations, rewards, done flags, info), each of length `N`, slot `k`
holding exactly the projections of `run_one_step` on slot `k`'s environment
and action; `step` called with an action sequence whose length differs from
`N` fails fast on the length assertion, before executing any slot's step. -/
theorem C3_step_contract {S O I : Type} (E : EnvDyn S O I) (envs : List S)
    (actions : List ℕ) :
    (actions.length = envs.length → envs ≠ [] →
      ∃ (envs' : List S) (obs : List O) (rew : List ℚ) (dns : List Bool)
        (infs : List I),
        MultiEnvironment.step E envs actions = .ok (envs', obs, rew, dns, infs) ∧
        obs.length = envs.length ∧ rew.length = envs.length ∧
        dns.length = envs.length ∧ infs.length = envs.length ∧
        (∀ (k : ℕ) (s : S) (a : ℕ), envs[k]? = some s → actions[k]? = some a →
          obs[k]? = some (run_one_step E s a).2.1 ∧
          rew[k]? = some (run_one_step E s a).2.2.1 ∧
          dns[k]? = some (run_one_step E s a).2.2.2.1 ∧
          infs[k]? = some (run_one_step E s a).2.2.2.2)) ∧
    (actions.length ≠ envs.length →
      MultiEnvironment.step E envs actions = .error StepErr.assertFail) := by
  constructor
  · intro hlen hne
    have hzlen : (List.zipWith (run_one_step E) envs actions).length =
        envs.length := by
      rw [List.length_zipWith, hlen, min_self]
    refine ⟨_, _, _, _, _, step_eq_ok E envs actions hlen hne,
      by simp [hzlen], by simp [hzlen], by simp [hzlen], by simp [hzlen], ?_⟩
    intro k s a hs ha
    obtain ⟨_, h2, h3, h4, h5⟩ :=
      step_ok_getElem E (step_eq_ok E envs actions hlen hne) hs ha
    exact ⟨h2, h3, h4, h5⟩
  · intro hlen
    simp [MultiEnvironment.step, hlen]

set_option maxRecDepth 8000 in
theorem C3_step_contract_witness :
    (∃ (envs' : List ℕ) (obs : List ℕ) (rew : List ℚ) (dns : List Bool)
        (infs : List Unit),
      MultiEnvironment.step cEnv [5] [0] = .ok (envs', obs, rew, dns, infs) ∧
      obs.length = ([5] : List ℕ).length ∧ rew.length = ([5] : List ℕ).length ∧
      dns.length = ([5] : List ℕ).length ∧ infs.length = ([5] : List ℕ).length ∧
      (∀ (k : ℕ) (s : ℕ) (a : ℕ),
          ([5] : List ℕ)[k]? = some s → ([0] : List ℕ)[k]? = some a →
        obs[k]? = some (run_one_step cEnv s a).2.1 ∧
        rew[k]? = some (run_one_step cEnv s a).2.2.1 ∧
        dns[k]? = some (run_one_step cEnv s a).2.2.2.1 ∧
        infs[k]? = some (run_one_step cEnv s a).2.2.2.2)) ∧
    MultiEnvironment.step cEnv [5] ([] : List ℕ) = .error StepErr.assertFail :=
  ⟨(C3_step_contract cEnv [5] [0]).1 rfl (by decide),
   (C3_step_contract cEnv [5] []).2 (by decide)⟩

/-- C4: every per-slot reset — at pool construction
(`MultiEnvironment.init`), on pool-level reset (`MultiEnvironment.resetAll`),
and on automatic restart of a slot whose step reported `done = true`
(`run_one_step`) — goes through `reset_env`, which calls the environment's
reset and then executes exactly `100` steps of the no-op action `0`: the
count is the literal `100` for every environment `E` and state `s`,
independent of anything the environment returns during the warm-up. -/
theorem C4_reset_warmup_is_100_noops {S O I : Type} (E : EnvDyn S O I)
    (mk : Unit → S) (n : ℕ) (envs : List S) (s : S) (a : ℕ) :
    reset_env E s = (fun st => (E.stepFn st 0).1)^[100] ((E.resetFn s).1) ∧
    MultiEnvironment.init E mk n =
      (List.range n).map (fun _ => reset_env E (mk ())) ∧
    MultiEnvironment.resetAll E envs = envs.map (reset_env E) ∧
    ((E.stepFn s a).2.2.2.1 = true →
      (run_one_step E s a).1 = reset_env E (E.stepFn s a).1) := by
  refine ⟨foldl_step_range_eq_iterate _ 100 _, ?_, rfl, ?_⟩
  · simp [MultiEnvironment.init, MultiEnvironment.resetAll, List.map_map,
      Function.comp]
  · intro h
    simp [run_one_step, h]

theorem C4_reset_warmup_is_100_noops_witness :
    (run_one_step cEnv 5 0).1 = reset_env cEnv (cEnv.stepFn 5 0).1 :=
  (C4_reset_warmup_is_100_noops cEnv (fun _ => 0) 1 [0] 5 0).2.2.2 rfl

/-! ## Concrete latent-dynamics models (batch 1, two latent factors,
one action) used to exercise the causal-graph builder -/

/-- An encoder that sends everything to the all-zero latent batch. -/
def encZero : (Fin 1 → Unit) → Latents 1 2 := fun _ _ _ => 0

/-- A transition capability that always predicts the all-zero latent batch:
with it every counterfactual difference vanishes and the raw edge-weight
matrix is identically zero. -/
def transZero : Latents 1 2 → (Fin 1 → Fin 1 → ℚ) → Latents 1 2 :=
  fun _ _ _ _ => 0

/-- An encoder that sends everything to the all-ones latent batch. -/
def encOne : (Fin 1 → Unit) → Latents 1 2 := fun _ _ _ => 1

/-- The identity transition capability `transition(z, a) = z`. -/
def transId : Latents 1 2 → (Fin 1 → Fin 1 → ℚ) → Latents 1 2 := fun z _ => z

/-- A trivial observation batch (`Unit` observations at every time index). -/
def statesU : Fin 1 → ℕ → Unit := fun _ _ => ()

/-- The constant action sequence `0`. -/
def actions0 : Fin 1 → ℕ → Fin 1 := fun _ _ => 0

/-- With the all-zero transition every counterfactual difference is
`(0 - 0)^2`, so the raw edge-weight matrix is identically zero. -/
lemma rawZero_all_zero (i j : Fin 2) :
    rawCausalEdgeWeights encZero transZero statesU actions0 i j = 0 := by
  rw [rawCausalEdgeWeights_apply]
  apply Finset.sum_eq_zero
  intro bi _
  simp [cfDifference, dstZ, counterfactualOutcome, transZero]

/-- With the identity transition on the all-ones latent, ablating factor `0`
changes destination factor `0` from `1` to `0`, so the raw weight at `(0,0)`
is `1`. -/
lemma rawOne_00_ne_zero :
    rawCausalEdgeWeights encOne transId statesU actions0 0 0 ≠ 0 := by
  rw [rawCausalEdgeWeights_apply]
  have : ∀ bi : Fin 1,
      cfDifference encOne transId statesU actions0 0 bi 0 = 1 := by
    intro bi
    simp [cfDifference, dstZ, srcZ, counterfactualOutcome, setColZero,
      transId, encOne, zInit]
  rw [Finset.sum_congr rfl (fun bi _ => this bi)]
  simp

/-- C2 (counterexample): when every raw edge weight is zero, the builder does
**not** skip the division and return the all-zero matrix — the line
`causal_edge_weights /= causal_edge_weights.max()` runs unconditionally, so
every entry becomes the IEEE result of `0.0 / 0.0`, namely `nan`.  With the
all-zero transition `transZero` the raw matrix is identically zero, and the
returned entry `(0,0)` is `nan`, not `0`. -/
theorem C2_counterexample :
    rawCausalEdgeWeights encZero transZero statesU actions0 0 0 = 0 ∧
    compute_causal_graph encZero transZero statesU actions0 0 0 = NpFloat.nan ∧
    NpFloat.nan ≠ NpFloat.val 0 := by
  refine ⟨rawZero_all_zero 0 0, ?_, by simp⟩
  obtain ⟨i1, j1, hmax⟩ :=
    matMax_is_entry (rawCausalEdgeWeights encZero transZero statesU actions0) 0
  have hm0 : matMax (rawCausalEdgeWeights encZero transZero statesU actions0) = 0 := by
    rw [hmax]
    exact rawZero_all_zero i1 j1
  simp only [compute_causal_graph]
  rw [rawZero_all_zero 0 0, hm0]
  simp [npDiv]

/-- C2 (amended): the returned matrix is the raw edge-weight matrix divided
entrywise by its maximum entry.  Whenever some raw entry is non-zero, every
returned entry is a finite value in `[0, 1]` equal to `raw i j / max`, and
some entry is exactly `1`.  When every raw entry is zero, the division is
**not** skipped: the unconditional `0/0` makes every returned entry `nan`
rather than the all-zero matrix. -/
theorem C2_normalization {b L A : ℕ} {Obs : Type}
    (encoder : (Fin b → Obs) → Latents b L)
    (transition : Latents b L → (Fin b → Fin A → ℚ) → Latents b L)
    (states : Fin b → ℕ → Obs) (actions : Fin b → ℕ → Fin A) :
    ((∃ i0 j0, rawCausalEdgeWeights encoder transition states actions i0 j0 ≠ 0) →
      (∀ i j, compute_causal_graph encoder transition states actions i j =
          NpFloat.val (rawCausalEdgeWeights encoder transition states actions i j /
            matMax (rawCausalEdgeWeights encoder transition states actions)) ∧
        0 ≤ rawCausalEdgeWeights encoder transition states actions i j /
            matMax (rawCausalEdgeWeights encoder transition states actions) ∧
        rawCausalEdgeWeights encoder transition states actions i j /
            matMax (rawCausalEdgeWeights encoder transition states actions) ≤ 1) ∧
      (∃ i j, compute_causal_graph encoder transition states actions i j =
        NpFloat.val 1)) ∧
    ((∀ i j, rawCausalEdgeWeights encoder transition states actions i j = 0) →
      ∀ i j, compute_causal_graph encoder transition states actions i j =
        NpFloat.nan) := by
  constructor
  · rintro ⟨i0, j0, h0⟩
    have hpos : 0 < matMax (rawCausalEdgeWeights encoder transition states actions) :=
      lt_of_lt_of_le
        (lt_of_le_of_ne (rawCausalEdgeWeights_nonneg encoder transition states actions i0 j0)
          (Ne.symm h0))
        (matMax_ge _ i0 j0)
    constructor
    · intro i j
      refine ⟨?_, ?_, ?_⟩
      · simp only [compute_causal_graph, npDiv, if_neg hpos.ne']
      · exact div_nonneg
          (rawCausalEdgeWeights_nonneg encoder transition states actions i j) hpos.le
      · exact (div_le_one hpos).mpr (matMax_ge _ i j)
    · obtain ⟨i1, j1, hmax⟩ :=
        matMax_is_entry (rawCausalEdgeWeights encoder transition states actions) i0
      refine ⟨i1, j1, ?_⟩
      simp only [compute_causal_graph, npDiv, if_neg hpos.ne', ← hmax,
        div_self hpos.ne']
  · intro hall i j
    obtain ⟨i1, j1, hmax⟩ :=
      matMax_is_entry (rawCausalEdgeWeights encoder transition states actions) i
    have hm0 : matMax (rawCausalEdgeWeights encoder transition states actions) = 0 := by
      rw [hmax]; exact hall i1 j1
    simp only [compute_causal_graph]
    rw [hall i j, hm0]
    simp [npDiv]

theorem C2_normalization_witness :
    ((∀ i j, compute_causal_graph encOne transId statesU actions0 i j =
        NpFloat.val (rawCausalEdgeWeights encOne transId statesU actions0 i j /
          matMax (rawCausalEdgeWeights encOne transId statesU actions0)) ∧
      0 ≤ rawCausalEdgeWeights encOne transId statesU actions0 i j /
          matMax (rawCausalEdgeWeights encOne transId statesU actions0) ∧
      rawCausalEdgeWeights encOne transId statesU actions0 i j /
          matMax (rawCausalEdgeWeights encOne transId statesU actions0) ≤ 1) ∧
     (∃ i j, compute_causal_graph encOne transId statesU actions0 i j =
        NpFloat.val 1)) ∧
    (∀ i j, compute_causal_graph encZero transZero statesU actions0 i j =
      NpFloat.nan) :=
  ⟨(C2_normalization encOne transId statesU actions0).1 ⟨0, 0, rawOne_00_ne_zero⟩,
   (C2_normalization encZero transZero statesU actions0).2 rawZero_all_zero⟩

/-- C5: for every source latent index `i`, the builder's counterfactual
outcome is the transition applied to a copy of `src_z` whose column `i` is
exactly `0` across the whole batch (all other columns untouched), with the
one-hot encoding of `action[t=1]` — the same action used to compute the
factual `dst_z` — and the factual trajectory is `z0 = encode(obs[t=0])`,
`src_z = transition(z0, onehot(action[t=0]))`,
`dst_z = transition(src_z, onehot(action[t=1]))`; the builder's raw edge
weights are computed from exactly these quantities. -/
theorem C5_counterfactual_construction {b L A : ℕ} {Obs : Type}
    (encoder : (Fin b → Obs) → Latents b L)
    (transition : Latents b L → (Fin b → Fin A → ℚ) → Latents b L)
    (states : Fin b → ℕ → Obs) (actions : Fin b → ℕ → Fin A) (i : Fin L) :
    counterfactualOutcome encoder transition states actions i =
      transition (setColZero (srcZ encoder transition states actions) i)
        (onehotB (fun bi => actions bi 1)) ∧
    (∀ bi, setColZero (srcZ encoder transition states actions) i bi i = 0) ∧
    (∀ bi k, k ≠ i →
      setColZero (srcZ encoder transition states actions) i bi k =
        srcZ encoder transition states actions bi k) ∧
    zInit encoder states = encoder (fun bi => states bi 0) ∧
    srcZ encoder transition states actions =
      transition (zInit encoder states) (onehotB (fun bi => actions bi 0)) ∧
    dstZ encoder transition states actions =
      transition (srcZ encoder transition states actions)
        (onehotB (fun bi => actions bi 1)) ∧
    (∀ j, rawCausalEdgeWeights encoder transition states actions i j =
      ∑ bi, (dstZ encoder transition states actions bi j -
        counterfactualOutcome encoder transition states actions i bi j) ^ 2) := by
  refine ⟨rfl, fun bi => by simp [setColZero],
    fun bi k hk => by simp [setColZero, hk], rfl, rfl, rfl, fun j => ?_⟩
  rw [rawCausalEdgeWeights_apply]
  rfl

theorem C5_counterfactual_construction_witness :
    setColZero (srcZ encOne transId statesU actions0) 0 0 1 =
      srcZ encOne transId statesU actions0 0 1 :=
  (C5_counterfactual_construction encOne transId statesU actions0 0).2.2.1
    0 1 (by decide)

/-- C6: the raw edge weight at `(i, j)` is the sum over the batch dimension
(a sum, not a mean) of the squared difference
`(dst_z - counterfactual_outcome)^2` at destination column `j`; consequently
every raw edge weight is non-negative, and when the per-sample contribution
is a constant `c` the raw weight is `b * c` — it scales with batch size. -/
theorem C6_edge_weight_batch_sum {b L A : ℕ} {Obs : Type}
    (encoder : (Fin b → Obs) → Latents b L)
    (transition : Latents b L → (Fin b → Fin A → ℚ) → Latents b L)
    (states : Fin b → ℕ → Obs) (actions : Fin b → ℕ → Fin A) (i j : Fin L) :
    rawCausalEdgeWeights encoder transition states actions i j =
      ∑ bi, cfDifference encoder transition states actions i bi j ∧
    (∀ bi, cfDifference encoder transition states actions i bi j =
      (dstZ encoder transition states actions bi j -
        counterfactualOutcome encoder transition states actions i bi j) ^ 2) ∧
    0 ≤ rawCausalEdgeWeights encoder transition states actions i j ∧
    (∀ c : ℚ, (∀ bi, cfDifference encoder transition states actions i bi j = c) →
      rawCausalEdgeWeights encoder transition states actions i j = b * c) := by
  refine ⟨rawCausalEdgeWeights_apply encoder transition states actions i j,
    fun bi => rfl,
    rawCausalEdgeWeights_nonneg encoder transition states actions i j,
    fun c hc => ?_⟩
  rw [rawCausalEdgeWeights_apply]
  rw [Finset.sum_congr rfl (fun bi _ => hc bi), Finset.sum_const,
    Finset.card_univ, Fintype.card_fin, nsmul_eq_mul]

theorem C6_edge_weight_batch_sum_witness :
    rawCausalEdgeWeights encZero transZero statesU actions0 0 0 = 1 * 0 :=
  (C6_edge_weight_batch_sum encZero transZero statesU actions0 0 0).2.2.2
    0 (fun bi => by
      simp [cfDifference, dstZ, counterfactualOutcome, transZero])

/-- C7: with an identity transition capability (`transition(z, a) = z`) and
`L = 2`, ablating factor `i` gives `cf_difference[:, i] = src_z[:, i]^2` and
`cf_difference[:, j] = 0` for `j ≠ i`, so the pre-normalization edge-weight
matrix is diagonal. -/
theorem C7_identity_transition_diagonal {b A : ℕ} {Obs : Type}
    (encoder : (Fin b → Obs) → Latents b 2)
    (transition : Latents b 2 → (Fin b → Fin A → ℚ) → Latents b 2)
    (states : Fin b → ℕ → Obs) (actions : Fin b → ℕ → Fin A)
    (ht : ∀ z a, transition z a = z) :
    (∀ (i : Fin 2) (bi : Fin b),
      cfDifference encoder transition states actions i bi i =
        (srcZ encoder transition states actions bi i) ^ 2) ∧
    (∀ (i j : Fin 2) (bi : Fin b), j ≠ i →
      cfDifference encoder transition states actions i bi j = 0) ∧
    (∀ i j : Fin 2, i ≠ j →
      rawCausalEdgeWeights encoder transition states actions i j = 0) := by
  have hdst : dstZ encoder transition states actions =
      srcZ encoder transition states actions := by
    rw [dstZ, ht]
  have hcf : ∀ i, counterfactualOutcome encoder transition states actions i =
      setColZero (srcZ encoder transition states actions) i := by
    intro i
    rw [counterfactualOutcome, ht]
  have hoff : ∀ (i j : Fin 2) (bi : Fin b), j ≠ i →
      cfDifference encoder transition states actions i bi j = 0 := by
    intro i j bi hj
    simp [cfDifference, hdst, hcf, setColZero, hj]
  refine ⟨?_, hoff, ?_⟩
  · intro i bi
    simp [cfDifference, hdst, hcf, setColZero]
  · intro i j hij
    rw [rawCausalEdgeWeights_apply]
    exact Finset.sum_eq_zero (fun bi _ => hoff i j bi hij.symm)

theorem C7_identity_transition_diagonal_witness :
    rawCausalEdgeWeights encOne transId statesU actions0 0 1 = 0 :=
  (C7_identity_transition_diagonal encOne transId statesU actions0
    (fun z a => rfl)).2.2 0 1 (by decide)

/-- C8: the causal-graph builder is deterministic in its inputs: for a fixed
latent-dynamics capability (frozen, inference-mode models are fixed
functions) and a fixed trajectory batch, any two invocations with equal
inputs return identical output matrices, and the builder has no side effects
on the model — the capability is only ever applied, never modified. -/
theorem C8_deterministic {b L A : ℕ} {Obs : Type}
    (e1 e2 : (Fin b → Obs) → Latents b L)
    (t1 t2 : Latents b L → (Fin b → Fin A → ℚ) → Latents b L)
    (st1 st2 : Fin b → ℕ → Obs) (ac1 ac2 : Fin b → ℕ → Fin A)
    (he : e1 = e2) (ht : t1 = t2) (hst : st1 = st2) (hac : ac1 = ac2) :
    compute_causal_graph e1 t1 st1 ac1 = compute_causal_graph e2 t2 st2 ac2 := by
  subst he ht hst hac
  rfl

theorem C8_deterministic_witness :
    compute_causal_graph encZero transZero statesU actions0 =
      compute_causal_graph encZero transZero statesU actions0 :=
  C8_deterministic encZero encZero transZero transZero statesU statesU
    actions0 actions0 rfl rfl rfl rfl

/-- C10: within one invocation of the builder, no iteration of the ablation
loop mutates `src_z` or `dst_z` (each `loopBody` returns them unchanged, and
after any number of iterations they still equal the original factual
latents), and the ablation for source factor `i` is applied to a fresh copy
of the original `src_z`: it zeroes exactly column `i` and leaves every other
column equal to the factual `src_z`, so ablations never accumulate across
iterations. -/
theorem C10_ablations_do_not_accumulate {b L A : ℕ} {Obs : Type}
    (encoder : (Fin b → Obs) → Latents b L)
    (transition : Latents b L → (Fin b → Fin A → ℚ) → Latents b L)
    (states : Fin b → ℕ → Obs) (actions : Fin b → ℕ → Fin A) :
    (∀ (st : LoopState b L) (i : Fin L),
      (loopBody transition (onehotB (fun bi => actions bi 1)) st i).src_z =
        st.src_z ∧
      (loopBody transition (onehotB (fun bi => actions bi 1)) st i).dst_z =
        st.dst_z) ∧
    (∀ l : List (Fin L),
      (l.foldl (loopBody transition (onehotB (fun bi => actions bi 1)))
        ⟨srcZ encoder transition states actions,
         dstZ encoder transition states actions, fun _ _ => 0⟩).src_z =
        srcZ encoder transition states actions ∧
      (l.foldl (loopBody transition (onehotB (fun bi => actions bi 1)))
        ⟨srcZ encoder transition states actions,
         dstZ encoder transition states actions, fun _ _ => 0⟩).dst_z =
        dstZ encoder transition states actions) ∧
    (∀ (i : Fin L) (bi : Fin b),
      setColZero (srcZ encoder transition states actions) i bi i = 0) ∧
    (∀ (i : Fin L) (bi : Fin b) (k : Fin L), k ≠ i →
      setColZero (srcZ encoder transition states actions) i bi k =
        srcZ encoder transition states actions bi k) := by
  refine ⟨fun st i => ⟨rfl, rfl⟩,
    fun l => ⟨foldl_loopBody_src_z _ _ _ _, foldl_loopBody_dst_z _ _ _ _⟩,
    fun i bi => by simp [setColZero],
    fun i bi k hk => by simp [setColZero, hk]⟩

theorem C10_ablations_do_not_accumulate_witness :
    setColZero (srcZ encZero transZero statesU actions0) 0 0 1 =
      srcZ encZero transZero statesU actions0 0 1 :=
  (C10_ablations_do_not_accumulate encZero transZero statesU actions0).2.2.2
    0 0 1 (by decide)

end SCMGan
